import Mathlib

/-!
Verification of the ports routing core (mojo/edk/system/ports).

This file is a shallow embedding, in Lean 4, of the port state machine and
the event handlers implemented in `mojo/edk/system/ports/node.cc` and
`mojo/edk/system/ports/message_queue.cc`.  Pure C++ functions become Lean
functions; the mutable node state (the name → Port map, plus the fresh-name
generator supplied by the delegate) is threaded explicitly.  Calls to the
delegate (`ForwardMessage`, `PortStatusChanged`) become an explicit output
list.  Per-port mutexes are modeled by an explicit hold counter on each
port record, so that the manual lock/unlock loop in
`Node::WillSendMessage_Locked` can be checked against its intent.

Sequence numbers are u64/u32 in the source; they are modeled as `Nat`
(overflow is irrelevant to every property proved here: the source itself
carries a "TODO: Handle sequence number roll-over"), with the source's
unsigned subtractions rendered as truncated `Nat` subtraction and guarded
by explicit hypotheses `1 ≤ _` where they matter.
-/

namespace Ports

/-- Error codes from `ports.h`. -/
def OK : Int := 0
def ERROR_PORT_UNKNOWN : Int := -10
def ERROR_PORT_EXISTS : Int := -11
def ERROR_PORT_STATE_UNEXPECTED : Int := -12
def ERROR_PORT_CANNOT_SEND_SELF : Int := -13
def ERROR_PORT_PEER_CLOSED : Int := -14
def ERROR_PORT_CANNOT_SEND_PEER : Int := -15
def ERROR_NOT_IMPLEMENTED : Int := -100
/-- Marks a path on which the C++ source would dereference a null
`shared_ptr` (undefined behavior); unreachable under the hypotheses of
every theorem below. -/
def UB_NULL_DEREF : Int := -1000

/-- Opaque 128-bit port identifier (equality/hashing only); modeled as `Nat`.
`0` is the invalid sentinel. -/
abbrev PortName := Nat

/-- Opaque 128-bit node identifier; modeled as `Nat`. -/
abbrev NodeName := Nat

def kInvalidPortName : PortName := 0
def kInvalidNodeName : NodeName := 0

/-- The initial sequence number of every fresh port (`kInitialSequenceNum`). -/
def kInitialSequenceNum : Nat := 1

/-- The invalid sequence number sentinel (`kInvalidSequenceNum`). -/
def kInvalidSequenceNum : Nat := 0

/-- `PortDescriptor`: the wire record describing a transferred port. -/
structure PortDescriptor where
  peer_node_name : NodeName
  peer_port_name : PortName
  referring_node_name : NodeName
  referring_port_name : PortName
  next_sequence_num_to_send : Nat
  next_sequence_num_to_receive : Nat
deriving DecidableEq, Repr

/-- `ObserveProxyEventData`. -/
structure ObserveProxyEventData where
  proxy_node_name : NodeName
  proxy_port_name : PortName
  proxy_to_node_name : NodeName
  proxy_to_port_name : PortName
deriving DecidableEq, Repr

/-- The event payload following the `EventHeader` of a message.  User
messages carry `UserEventData { sequence_num, num_ports }` followed by the
port descriptors and the payload bytes (payload modeled as an opaque
`Nat`). -/
inductive EventData where
  | user (sequence_num : Nat) (descriptors : List PortDescriptor) (payload : Nat)
  | portAccepted
  | observeProxy (d : ObserveProxyEventData)
  | observeProxyAck (last_sequence_num : Nat)
  | observeClosure (last_sequence_num : Nat)
deriving DecidableEq, Repr

/-- A wire message: the `EventHeader` destination port name, the event
data, and (for user messages) the trailing array of current names of the
transferred ports. -/
structure Message where
  port_name : PortName
  data : EventData
  ports : List PortName
deriving DecidableEq, Repr

/-- `GetSequenceNum`: the sequence number of a user message (0 for other
event types, which never enter a message queue). -/
def Message.sequence_num (m : Message) : Nat :=
  match m.data with
  | .user s _ _ => s
  | _ => 0

/-- Write the `sequence_num` field of a user message's event data. -/
def Message.withSequenceNum (m : Message) (s : Nat) : Message :=
  { m with data := match m.data with
      | .user _ ds p => .user s ds p
      | d => d }

/-- Write the header's destination `port_name`. -/
def Message.withDest (m : Message) (pn : PortName) : Message :=
  { m with port_name := pn }

/-- The port descriptor array of a user message. -/
def Message.descriptors (m : Message) : List PortDescriptor :=
  match m.data with
  | .user _ ds _ => ds
  | _ => []

/-- Replace the name array and descriptor array of a user message (the
rewriting performed while taking ports in `WillSendMessage_Locked`). -/
def Message.withPortsAndDescriptors (m : Message) (names : List PortName)
    (descs : List PortDescriptor) : Message :=
  { m with
    ports := names,
    data := match m.data with
      | .user s _ p => .user s descs p
      | d => d }

/-- The per-port reordering buffer (`MessageQueue`): a heap keyed by
sequence number (modeled as the list of queued messages; the C++ heap top
is an element of minimal sequence number), a `next_sequence_num_` cursor,
and the `signalable_` flag. -/
structure MessageQueue where
  heap : List Message
  next_sequence_num : Nat
  signalable : Bool
deriving DecidableEq, Repr

/-- An element of minimal sequence number, as exposed at `heap_[0]` by the
C++ min-heap. -/
def findMin : List Message → Option Message
  | [] => none
  | m :: rest =>
    match findMin rest with
    | none => some m
    | some m2 => if m.sequence_num ≤ m2.sequence_num then some m else some m2

/-- `MessageQueue::GetNextMessageIf`: pop the heap top only when its
sequence number equals the cursor and the selector accepts it; the C++
null selector is passed as the constantly-true function. -/
def MessageQueue.getNextMessageIf (q : MessageQueue) (selector : Message → Bool) :
    Option Message × MessageQueue :=
  match findMin q.heap with
  | none => (none, q)
  | some m =>
    if m.sequence_num ≠ q.next_sequence_num then (none, q)
    else if ¬ selector m then (none, q)
    else (some m, { q with heap := q.heap.erase m,
                           next_sequence_num := q.next_sequence_num + 1 })

/-- `MessageQueue::AcceptMessage`: push, then report `has_next_message`
(false whenever `signalable_` is false). -/
def MessageQueue.acceptMessage (q : MessageQueue) (m : Message) :
    MessageQueue × Bool :=
  let q2 : MessageQueue := { q with heap := m :: q.heap }
  let has_next : Bool :=
    if ¬ q2.signalable then false
    else match findMin q2.heap with
      | some top => top.sequence_num = q2.next_sequence_num
      | none => false
  (q2, has_next)

/-- `MessageQueue::HasNextMessage`. -/
def MessageQueue.hasNextMessage (q : MessageQueue) : Bool :=
  if ¬ q.signalable then false
  else match findMin q.heap with
    | some top => top.sequence_num = q.next_sequence_num
    | none => false

/-- Port states (`Port::State` as used by `node.cc`). -/
inductive PortState where
  | uninitialized
  | receiving
  | buffering
  | proxying
  | closed
deriving DecidableEq, Repr

/-- The central `Port` record.  `lock_count` models the hold count of the
per-port `std::mutex` (0 when free), so the manual lock/unlock sequence in
`WillSendMessage_Locked` is observable. -/
structure Port where
  state : PortState
  peer_node_name : NodeName
  peer_port_name : PortName
  next_sequence_num_to_send : Nat
  last_sequence_num_to_receive : Nat
  message_queue : MessageQueue
  remove_proxy_on_last_message : Bool
  peer_closed : Bool
  send_on_proxy_removal : Option (NodeName × Message)
  outgoing_messages : List Message
  outgoing_ports : List PortName
  lock_count : Nat
deriving DecidableEq, Repr

/-- The `Port` constructor: fresh ports start uninitialized with the given
send/receive sequence counters. -/
def mkPort (next_send next_receive : Nat) : Port :=
  { state := .uninitialized
    peer_node_name := kInvalidNodeName
    peer_port_name := kInvalidPortName
    next_sequence_num_to_send := next_send
    last_sequence_num_to_receive := 0
    message_queue := { heap := [], next_sequence_num := next_receive, signalable := true }
    remove_proxy_on_last_message := false
    peer_closed := false
    send_on_proxy_removal := none
    outgoing_messages := []
    outgoing_ports := []
    lock_count := 0 }

/-- Effects routed through the `NodeDelegate`. -/
inductive Output where
  | forwardMessage (to_node : NodeName) (m : Message)
  | portStatusChanged (p : PortName)
deriving DecidableEq, Repr

/-- The node state: its name, the name → Port map (an association list
with unique keys), and the delegate's fresh-name generator modeled as a
counter (`GenerateRandomPortName` returns successive values). -/
structure Node where
  name : NodeName
  ports : List (PortName × Port)
  next_random : Nat
deriving DecidableEq, Repr

/-- Lookup in the name → Port association list. -/
def lookupPort : List (PortName × Port) → PortName → Option Port
  | [], _ => none
  | e :: rest, pn => if e.1 = pn then some e.2 else lookupPort rest pn

/-- Update the record stored under an existing key. -/
def setEntries : List (PortName × Port) → PortName → Port → List (PortName × Port)
  | [], _, _ => []
  | e :: rest, pn, q =>
    if e.1 = pn then (pn, q) :: setEntries rest pn q
    else e :: setEntries rest pn q

/-- Remove the entry with the given key. -/
def eraseEntries : List (PortName × Port) → PortName → List (PortName × Port)
  | [], _ => []
  | e :: rest, pn =>
    if e.1 = pn then eraseEntries rest pn
    else e :: eraseEntries rest pn

/-- `Node::GetPort`. -/
def Node.getPort (n : Node) (pn : PortName) : Option Port :=
  lookupPort n.ports pn

/-- Store an updated record for an existing key (in-place mutation of the
shared `Port` record in C++). -/
def Node.setPort (n : Node) (pn : PortName) (p : Port) : Node :=
  { n with ports := setEntries n.ports pn p }

/-- `Node::AddPortWithName`. -/
def Node.addPortWithName (n : Node) (pn : PortName) (p : Port) : Int × Node :=
  if (lookupPort n.ports pn).isSome then (ERROR_PORT_EXISTS, n)
  else (OK, { n with ports := n.ports ++ [(pn, p)] })

/-- `Node::ErasePort`. -/
def Node.erasePort (n : Node) (pn : PortName) : Node :=
  { n with ports := eraseEntries n.ports pn }

/-- `NodeDelegate::GenerateRandomPortName`. -/
def Node.genName (n : Node) : PortName × Node :=
  (n.next_random, { n with next_random := n.next_random + 1 })

/-- `CanAcceptMoreMessages` (anonymous namespace of `node.cc`). -/
def canAcceptMoreMessages (p : Port) : Bool :=
  let next := p.message_queue.next_sequence_num
  if p.peer_closed || p.remove_proxy_on_last_message then
    if p.last_sequence_num_to_receive = next - 1 then false else true
  else true

/-- `Node::NewInternalMessage`: an internal event message carries no
transferred ports. -/
def newInternalMessage (pn : PortName) (d : EventData) : Message :=
  { port_name := pn, data := d, ports := [] }

/-- `Node::ClosePort`.  The embedder holds a `PortRef` obtained via
`GetPort`; modeled as lookup by name. -/
def closePort (n : Node) (pn : PortName) : Int × Node × List Output :=
  match n.getPort pn with
  | none => (ERROR_PORT_UNKNOWN, n, [])
  | some p =>
    if p.state ≠ .receiving then (ERROR_PORT_STATE_UNEXPECTED, n, [])
    else
      let n1 := n.setPort pn { p with state := .closed }
      let msg := newInternalMessage p.peer_port_name
        (.observeClosure (p.next_sequence_num_to_send - 1))
      let n2 := n1.erasePort pn
      (OK, n2, [Output.forwardMessage p.peer_node_name msg])

/-- `Node::GetMessageIf` (and `GetMessage`, which passes a null selector,
here the constantly-true function).  Returns the result code, the new node
state, and the delivered message if any. -/
def getMessageIf (n : Node) (pn : PortName) (selector : Message → Bool) :
    Int × Node × Option Message :=
  match n.getPort pn with
  | none => (ERROR_PORT_UNKNOWN, n, none)
  | some p =>
    if p.state ≠ .receiving then (ERROR_PORT_STATE_UNEXPECTED, n, none)
    else if ¬ canAcceptMoreMessages p then (ERROR_PORT_PEER_CLOSED, n, none)
    else
      let r := p.message_queue.getNextMessageIf selector
      let n1 := n.setPort pn { p with message_queue := r.2 }
      match r.1 with
      | none => (OK, n1, none)
      | some m =>
        -- Mark each port transferred by the delivered message signalable.
        let n2 := m.ports.foldl (fun acc new_pn =>
          match acc.getPort new_pn with
          | none => acc  -- the source DCHECKs that the port exists
          | some np => acc.setPort new_pn
              { np with message_queue := { np.message_queue with signalable := true } }) n1
        (OK, n2, some m)

/-- `Node::AcceptPort`: create the local record for a transferred port and
notify the referring port with `PortAccepted`. -/
def acceptPort (n : Node) (pn : PortName) (d : PortDescriptor) :
    Int × Node × List Output :=
  let p : Port :=
    { mkPort d.next_sequence_num_to_send d.next_sequence_num_to_receive with
      state := .receiving
      peer_node_name := d.peer_node_name
      peer_port_name := d.peer_port_name
      message_queue := { heap := [], next_sequence_num := d.next_sequence_num_to_receive,
                         signalable := false } }
  let r := n.addPortWithName pn p
  if r.1 ≠ OK then (r.1, r.2, [])
  else
    (OK, r.2, [Output.forwardMessage d.referring_node_name
      (newInternalMessage d.referring_port_name .portAccepted)])

/-- `Node::WillSendPort_Locked`: rename and re-point one embedded port,
recording the hand-off in the message's port descriptor. -/
def willSendPort (n : Node) (p : Port) (to_node : NodeName) (local_name : PortName) :
    Node × Port × PortName × PortDescriptor :=
  let g := n.genName
  let desc : PortDescriptor :=
    { peer_node_name := p.peer_node_name
      peer_port_name := p.peer_port_name
      referring_node_name := n.name
      referring_port_name := local_name
      next_sequence_num_to_send := p.next_sequence_num_to_send
      next_sequence_num_to_receive := p.message_queue.next_sequence_num }
  let p2 : Port := { p with
    state := .buffering
    peer_node_name := to_node
    peer_port_name := g.1 }
  (g.2, p2, g.1, desc)

/-- The validation loop of `WillSendMessage_Locked`: lock each embedded
port in turn and check that it is receiving and is not the sender's peer.
On failure at index `i` the source executes
`for (j = 0; j <= i; ++j) ports[i]->lock.unlock();`, releasing only the
failing port's lock (i+1 times) and leaving ports 0..i-1 locked; the model
reproduces that with a saturating decrement of the hold counter. -/
def lockAndValidate (peer_port : PortName) : Node → List PortName → Nat → Int × Node
  | n, [], _ => (OK, n)
  | n, pn :: rest, i =>
    match n.getPort pn with
    | none => (UB_NULL_DEREF, n)
    | some q =>
      let n1 := n.setPort pn { q with lock_count := q.lock_count + 1 }
      let err : Int :=
        if q.state ≠ .receiving then ERROR_PORT_STATE_UNEXPECTED
        else if pn = peer_port then ERROR_PORT_CANNOT_SEND_PEER
        else OK
      if err ≠ OK then
        (err, n1.setPort pn { q with lock_count := q.lock_count + 1 - (i + 1) })
      else lockAndValidate peer_port n1 rest (i + 1)

/-- The hand-off loop of `WillSendMessage_Locked`: apply `WillSendPort` to
each embedded port, collecting the new names and descriptors. -/
def takePorts (to_node : NodeName) : Node → List PortName →
    Node × List PortName × List PortDescriptor
  | n, [] => (n, [], [])
  | n, pn :: rest =>
    match n.getPort pn with
    | none => (n, pn :: [], [])  -- unreachable after successful validation
    | some q =>
      let r := willSendPort n q to_node pn
      let n1 := r.1.setPort pn r.2.1
      let rec_rest := takePorts to_node n1 rest
      (rec_rest.1, r.2.2.1 :: rec_rest.2.1, r.2.2.2 :: rec_rest.2.2)

/-- The final unlock loop of `WillSendMessage_Locked` on success. -/
def unlockAll : Node → List PortName → Node
  | n, [] => n
  | n, pn :: rest =>
    match n.getPort pn with
    | none => unlockAll n rest
    | some q => unlockAll (n.setPort pn { q with lock_count := q.lock_count - 1 }) rest

/-- `Node::WillSendMessage_Locked`.  `p` is the sending port's record
(held locked by the caller); the function returns the result code, the
updated node (embedded-port mutations), the updated sending port, and the
updated message. -/
def willSendMessage (n : Node) (p : Port) (m : Message) :
    Int × Node × Port × Message :=
  -- Messages being forwarded by a proxy already have a sequence number;
  -- otherwise stamp with the port's next outgoing sequence number.
  let stamped := m.sequence_num = 0
  let p1 := if stamped then
      { p with next_sequence_num_to_send := p.next_sequence_num_to_send + 1 }
    else p
  let m1 := if stamped then m.withSequenceNum p.next_sequence_num_to_send else m
  if m1.ports.isEmpty then
    (OK, n, p1, m1.withDest p1.peer_port_name)
  else
    let v := lockAndValidate p1.peer_port_name n m1.ports 0
    if v.1 ≠ OK then
      -- Backpedal on the sequence number.
      (v.1, v.2,
       { p1 with next_sequence_num_to_send := p1.next_sequence_num_to_send - 1 },
       m1)
    else
      let t := takePorts p1.peer_node_name v.2 m1.ports
      let n2 := unlockAll t.1 t.2.1
      let m2 := (m1.withPortsAndDescriptors t.2.1 t.2.2).withDest p1.peer_port_name
      (OK, n2, p1, m2)

/-- `Node::ForwardMessages_Locked`, with fuel bounding the pops (the
initial heap length always suffices: each iteration pops one message). -/
def forwardMessagesAux : Nat → Node → Port → Int × Node × Port × List Output
  | 0, n, p => (OK, n, p, [])
  | fuel + 1, n, p =>
    let g := p.message_queue.getNextMessageIf (fun _ => true)
    match g.1 with
    | none => (OK, n, p, [])
    | some m =>
      let p1 := { p with message_queue := g.2 }
      let w := willSendMessage n p1 m
      if w.1 ≠ OK then (w.1, w.2.1, w.2.2.1, [])
      else
        let res := forwardMessagesAux fuel w.2.1 w.2.2.1
        (res.1, res.2.1, res.2.2.1,
         Output.forwardMessage w.2.2.1.peer_node_name w.2.2.2 :: res.2.2.2)

def forwardMessages (n : Node) (p : Port) : Int × Node × Port × List Output :=
  forwardMessagesAux p.message_queue.heap.length n p

/-- `Node::InitiateProxyRemoval_Locked`: announce this port as a proxy to
its current peer. -/
def initiateProxyRemoval (n : Node) (pn : PortName) : List Output :=
  match n.getPort pn with
  | none => []
  | some p =>
    [Output.forwardMessage p.peer_node_name
      (newInternalMessage p.peer_port_name
        (.observeProxy
          { proxy_node_name := n.name
            proxy_port_name := pn
            proxy_to_node_name := p.peer_node_name
            proxy_to_port_name := p.peer_port_name }))]

/-- `Node::MaybeRemoveProxy_Locked`: erase the proxy once the ack has been
seen and no further messages are expected, firing the deferred
`send_on_proxy_removal` message if armed. -/
def maybeRemoveProxy (n : Node) (pn : PortName) : Node × List Output :=
  match n.getPort pn with
  | none => (n, [])
  | some p =>
    if ¬ p.remove_proxy_on_last_message then (n, [])
    else if ¬ canAcceptMoreMessages p then
      let n1 := n.erasePort pn
      match p.send_on_proxy_removal with
      | some pr => (n1, [Output.forwardMessage pr.1 pr.2])
      | none => (n1, [])
    else (n, [])

/-- The `AcceptPort` loop at the head of `Node::OnUserMessage`: bind every
embedded port descriptor to this node, aborting on the first failure. -/
def acceptPortsLoop (n : Node) : List (PortName × PortDescriptor) →
    Int × Node × List Output
  | [] => (OK, n, [])
  | pr :: rest =>
    let a := acceptPort n pr.1 pr.2
    if a.1 ≠ OK then (a.1, a.2.1, a.2.2)
    else
      let res := acceptPortsLoop a.2.1 rest
      (res.1, res.2.1, a.2.2 ++ res.2.2)

/-- The cleanup loop of `Node::OnUserMessage` when the carrier message is
not accepted: close every newly bound port (failures are only logged). -/
def closeReceivedPorts (n : Node) : List PortName → Node × List Output
  | [] => (n, [])
  | pn :: rest =>
    let c := closePort n pn
    let res := closeReceivedPorts c.2.1 rest
    (res.1, c.2.2 ++ res.2)

/-- `Node::OnUserMessage`. -/
def onUserMessage (n : Node) (m : Message) : Int × Node × List Output :=
  let port_name := m.port_name
  -- The destination port is looked up before the AcceptPort loop; the loop
  -- only inserts the (globally fresh) embedded names, so the entry for
  -- `port_name` is unchanged by it.
  let port0 := n.getPort port_name
  let a := acceptPortsLoop n (m.ports.zip m.descriptors)
  if a.1 ≠ OK then (a.1, a.2.1, a.2.2)
  else
    let n1 := a.2.1
    let outs := a.2.2
    match port0 with
    | some p =>
      if canAcceptMoreMessages p then
        let acc := p.message_queue.acceptMessage m
        let p1 := { p with message_queue := acc.1 }
        if p1.state = .buffering then
          (OK, n1.setPort port_name p1, outs)
        else if p1.state = .proxying then
          let f := forwardMessages n1 p1
          if f.1 ≠ OK then (f.1, f.2.1.setPort port_name f.2.2.1, outs ++ f.2.2.2)
          else
            let n2 := f.2.1.setPort port_name f.2.2.1
            let r := maybeRemoveProxy n2 port_name
            (OK, r.1, outs ++ f.2.2.2 ++ r.2)
        else
          let n2 := n1.setPort port_name p1
          if acc.2 then (OK, n2, outs ++ [Output.portStatusChanged port_name])
          else (OK, n2, outs)
      else
        -- Message not accepted: close all newly bound ports.
        let c := closeReceivedPorts n1 m.ports
        (OK, c.1, outs ++ c.2)
    | none =>
      let c := closeReceivedPorts n1 m.ports
      (OK, c.1, outs ++ c.2)

/-- `Node::OnPortAccepted`. -/
def onPortAccepted (n : Node) (pn : PortName) : Int × Node × List Output :=
  match n.getPort pn with
  | none => (ERROR_PORT_UNKNOWN, n, [])
  | some p =>
    if p.state ≠ .buffering then (ERROR_PORT_STATE_UNEXPECTED, n, [])
    else
      let p1 := { p with state := PortState.proxying }
      let f := forwardMessages n p1
      if f.1 ≠ OK then (f.1, f.2.1.setPort pn f.2.2.1, f.2.2.2)
      else
        let n1 := f.2.1.setPort pn f.2.2.1
        if f.2.2.1.remove_proxy_on_last_message then
          let r := maybeRemoveProxy n1 pn
          (OK, r.1, f.2.2.2 ++ r.2)
        else
          (OK, n1, f.2.2.2 ++ initiateProxyRemoval n1 pn)

/-- `Node::OnObserveProxy`. -/
def onObserveProxy (n : Node) (pn : PortName) (event : ObserveProxyEventData) :
    Int × Node × List Output :=
  match n.getPort pn with
  | none => (OK, n, [])  -- silently ignored: the port may have been closed
  | some p =>
    if p.peer_node_name = event.proxy_node_name ∧
       p.peer_port_name = event.proxy_port_name then
      if p.state = .receiving then
        let p1 := { p with
          peer_node_name := event.proxy_to_node_name
          peer_port_name := event.proxy_to_port_name }
        (OK, n.setPort pn p1,
         [Output.forwardMessage event.proxy_node_name
           (newInternalMessage event.proxy_port_name
             (.observeProxyAck (p.next_sequence_num_to_send - 1)))])
      else
        -- A proxy cannot honor the event now; defer an ack carrying the
        -- invalid sentinel until this port itself is removed.
        let ack := newInternalMessage event.proxy_port_name
          (.observeProxyAck kInvalidSequenceNum)
        let p1 := { p with send_on_proxy_removal := some (event.proxy_node_name, ack) }
        (OK, n.setPort pn p1, [])
    else
      (OK, n,
       [Output.forwardMessage p.peer_node_name
         (newInternalMessage p.peer_port_name (.observeProxy event))])

/-- `Node::OnObserveProxyAck`. -/
def onObserveProxyAck (n : Node) (pn : PortName) (last_sequence_num : Nat) :
    Int × Node × List Output :=
  match n.getPort pn with
  | none => (ERROR_PORT_UNKNOWN, n, [])
  | some p =>
    if p.state ≠ .proxying then (ERROR_PORT_STATE_UNEXPECTED, n, [])
    else if last_sequence_num = kInvalidSequenceNum then
      (OK, n, initiateProxyRemoval n pn)  -- send ObserveProxy again
    else
      let p1 := { p with
        remove_proxy_on_last_message := true
        last_sequence_num_to_receive := last_sequence_num }
      let n1 := n.setPort pn p1
      let r := maybeRemoveProxy n1 pn
      (OK, r.1, r.2)

/-- `Node::OnObserveClosure`. -/
def onObserveClosure (n : Node) (pn : PortName) (last_sequence_num : Nat) :
    Int × Node × List Output :=
  match n.getPort pn with
  | none => (OK, n, [])  -- OK: the port may have been closed already
  | some p =>
    let p1 := { p with
      peer_closed := true
      last_sequence_num_to_receive := last_sequence_num }
    if p1.state = .receiving then
      (OK, n.setPort pn p1, [Output.portStatusChanged pn])
    else
      let next_node := p1.peer_node_name
      let next_port := p1.peer_port_name
      let p2 := { p1 with remove_proxy_on_last_message := true }
      let n1 := n.setPort pn p2
      if p2.state = .proxying then
        let r := maybeRemoveProxy n1 pn
        (OK, r.1,
         r.2 ++ [Output.forwardMessage next_node
           (newInternalMessage next_port (.observeClosure last_sequence_num))])
      else (OK, n1, [])

/-- `Node::AcceptMessage`: dispatch by event type. -/
def acceptMessage (n : Node) (m : Message) : Int × Node × List Output :=
  match m.data with
  | .user _ _ _ => onUserMessage n m
  | .portAccepted => onPortAccepted n m.port_name
  | .observeProxy d => onObserveProxy n m.port_name d
  | .observeProxyAck k => onObserveProxyAck n m.port_name k
  | .observeClosure k => onObserveClosure n m.port_name k

/-- `Node::SendMessage`.  The local loopback path (peer on this node)
queues the message and drains the queue through `AcceptMessage`; since no
event handler re-enters `SendMessage`, the drain of the one queued message
is exactly one `AcceptMessage` call. -/
def sendMessage (n : Node) (pn : PortName) (m : Message) :
    Int × Node × List Output :=
  if pn ∈ m.ports then (ERROR_PORT_CANNOT_SEND_SELF, n, [])
  else
    match n.getPort pn with
    | none => (ERROR_PORT_UNKNOWN, n, [])
    | some p =>
      if p.state ≠ .receiving ∧ p.state ≠ .uninitialized then
        (ERROR_PORT_STATE_UNEXPECTED, n, [])
      else if p.state = .receiving ∧ p.peer_closed then
        (ERROR_PORT_PEER_CLOSED, n, [])
      else
        let w := willSendMessage n p m
        let n1 := w.2.1.setPort pn w.2.2.1
        if w.1 ≠ OK then (w.1, n1, [])
        else
          let p1 := w.2.2.1
          let m1 := w.2.2.2
          if p1.state = .uninitialized then
            (OK, w.2.1.setPort pn
              { p1 with outgoing_messages := p1.outgoing_messages ++ [m1],
                        outgoing_ports := p1.outgoing_ports ++ m1.ports }, [])
          else if p1.peer_node_name ≠ n.name then
            (OK, n1, [Output.forwardMessage p1.peer_node_name m1])
          else
            acceptMessage n1 m1

/-- Repeatedly call `GetMessage` (null selector) on one port, collecting
the delivered messages in order, until no message is delivered; the final
result code is returned alongside.  Fuel bounds the iteration; one more
than the number of queued messages always suffices. -/
def drainAux : Nat → Node → PortName → List Message × Int
  | 0, _, _ => ([], OK)
  | fuel + 1, n, pn =>
    let g := getMessageIf n pn (fun _ => true)
    match g.2.2 with
    | some m =>
      let res := drainAux fuel g.2.1 pn
      (m :: res.1, res.2)
    | none => ([], g.1)

/-! ### Association-map lemmas -/

theorem lookup_set_same (l : List (PortName × Port)) (pn : PortName) (p q : Port)
    (h : lookupPort l pn = some p) : lookupPort (setEntries l pn q) pn = some q := by
  induction l with
  | nil => simp [lookupPort] at h
  | cons a rest ih =>
    by_cases ha : a.1 = pn
    · simp [lookupPort, setEntries, ha]
    · simp only [lookupPort, setEntries, if_neg ha] at h ⊢
      exact ih h

theorem lookup_set_other (l : List (PortName × Port)) (pn x : PortName) (q : Port)
    (h : x ≠ pn) : lookupPort (setEntries l pn q) x = lookupPort l x := by
  induction l with
  | nil => simp [lookupPort, setEntries]
  | cons a rest ih =>
    by_cases ha : a.1 = pn
    · simp only [setEntries, if_pos ha, lookupPort, if_neg (Ne.symm h)]
      rw [if_neg (by rw [ha]; exact Ne.symm h)]
      exact ih
    · simp only [setEntries, if_neg ha, lookupPort]
      by_cases hx : a.1 = x
      · simp [hx]
      · simp only [if_neg hx]
        exact ih

theorem lookup_erase_same (l : List (PortName × Port)) (pn : PortName) :
    lookupPort (eraseEntries l pn) pn = none := by
  induction l with
  | nil => simp [lookupPort, eraseEntries]
  | cons a rest ih =>
    by_cases ha : a.1 = pn
    · simp only [eraseEntries, if_pos ha]
      exact ih
    · simp only [eraseEntries, if_neg ha, lookupPort, if_neg ha]
      exact ih

theorem lookup_erase_other (l : List (PortName × Port)) (pn x : PortName)
    (h : x ≠ pn) : lookupPort (eraseEntries l pn) x = lookupPort l x := by
  induction l with
  | nil => simp [lookupPort, eraseEntries]
  | cons a rest ih =>
    by_cases ha : a.1 = pn
    · simp only [eraseEntries, if_pos ha, lookupPort]
      rw [if_neg (by rw [ha]; exact Ne.symm h)]
      exact ih
    · simp only [eraseEntries, if_neg ha, lookupPort]
      by_cases hx : a.1 = x
      · simp [hx]
      · simp only [if_neg hx]
        exact ih

theorem getPort_setPort_same (n : Node) (pn : PortName) (p q : Port)
    (h : n.getPort pn = some p) : (n.setPort pn q).getPort pn = some q :=
  lookup_set_same n.ports pn p q h

theorem getPort_setPort_other (n : Node) (pn x : PortName) (q : Port)
    (h : x ≠ pn) : (n.setPort pn q).getPort x = n.getPort x :=
  lookup_set_other n.ports pn x q h

theorem getPort_erasePort_same (n : Node) (pn : PortName) :
    (n.erasePort pn).getPort pn = none :=
  lookup_erase_same n.ports pn

theorem getPort_erasePort_other (n : Node) (pn x : PortName)
    (h : x ≠ pn) : (n.erasePort pn).getPort x = n.getPort x :=
  lookup_erase_other n.ports pn x h

/-! ### findMin lemmas -/

theorem findMin_cons_ne_none (m : Message) (l : List Message) :
    findMin (m :: l) ≠ none := by
  cases l with
  | nil => simp [findMin]
  | cons b l2 =>
    unfold findMin
    cases h : findMin (b :: l2) with
    | none => simp
    | some m2 => by_cases hle : m.sequence_num ≤ m2.sequence_num <;> simp [hle]

theorem findMin_mem (l : List Message) (m : Message)
    (h : findMin l = some m) : m ∈ l := by
  induction l generalizing m with
  | nil => simp [findMin] at h
  | cons a l2 ih =>
    unfold findMin at h
    cases h2 : findMin l2 with
    | none =>
      rw [h2] at h
      simp only at h
      simp at h
      simp [h]
    | some m2 =>
      rw [h2] at h
      simp only at h
      by_cases hle : a.sequence_num ≤ m2.sequence_num
      · rw [if_pos hle] at h
        simp at h
        simp [h]
      · rw [if_neg hle] at h
        simp at h
        subst h
        exact List.mem_cons_of_mem a (ih m2 h2)

theorem findMin_cons_of_min (m : Message) (l : List Message)
    (h : ∀ x ∈ l, m.sequence_num ≤ x.sequence_num) :
    findMin (m :: l) = some m := by
  unfold findMin
  cases h2 : findMin l with
  | none => rfl
  | some m2 =>
    simp only
    rw [if_pos (h m2 (findMin_mem l m2 h2))]

/-! ### Concrete fixtures used by counterexamples and witnesses -/

/-- A user message with trivial payload and no transferred ports. -/
def userMsg (dest : PortName) (seq : Nat) : Message :=
  { port_name := dest, data := .user seq [] seq, ports := [] }

/-- A proxying port peered with port 20 at node 2, whose reordering queue
is empty with next-expected sequence number 5. -/
def tPort : Port :=
  { state := .proxying, peer_node_name := 2, peer_port_name := 20,
    next_sequence_num_to_send := 1, last_sequence_num_to_receive := 0,
    message_queue := { heap := [], next_sequence_num := 5, signalable := true },
    remove_proxy_on_last_message := false, peer_closed := false,
    send_on_proxy_removal := none, outgoing_messages := [], outgoing_ports := [],
    lock_count := 0 }

/-- A node (name 1) hosting only `tPort` under name 10. -/
def tNode : Node := { name := 1, ports := [(10, tPort)], next_random := 100 }

/-- An ObserveProxy event: proxy is 20@2 (this port's peer), proxying to
30@3. -/
def tEvt : ObserveProxyEventData :=
  { proxy_node_name := 2, proxy_port_name := 20,
    proxy_to_node_name := 3, proxy_to_port_name := 30 }

/-- A receiving variant of `tPort` with send counter 9. -/
def rPort : Port := { tPort with state := .receiving, next_sequence_num_to_send := 9 }

/-- A node hosting only `rPort` under name 10. -/
def rNode : Node := { name := 1, ports := [(10, rPort)], next_random := 100 }

/-- Characterization of `MaybeRemoveProxy_Locked` once
`remove_proxy_on_last_message` is armed: the proxy is erased (and any
armed deferred message fired) exactly when `last_sequence_num_to_receive`
equals the queue's next-expected number minus one. -/
theorem maybeRemoveProxy_spec (n : Node) (pn : PortName) (p : Port)
    (hp : n.getPort pn = some p) (hflag : p.remove_proxy_on_last_message = true) :
    (p.last_sequence_num_to_receive = p.message_queue.next_sequence_num - 1 →
      maybeRemoveProxy n pn =
        (n.erasePort pn,
         match p.send_on_proxy_removal with
         | some pr => [Output.forwardMessage pr.1 pr.2]
         | none => [])) ∧
    (p.last_sequence_num_to_receive ≠ p.message_queue.next_sequence_num - 1 →
      maybeRemoveProxy n pn = (n, [])) := by
  constructor
  · intro hcond
    have hcan : canAcceptMoreMessages p = false := by
      simp [canAcceptMoreMessages, hflag, hcond]
    simp only [maybeRemoveProxy, hp, hflag, hcan]
    cases hsp : p.send_on_proxy_removal <;> simp [hsp]
  · intro hcond
    have hcan : canAcceptMoreMessages p = true := by
      simp [canAcceptMoreMessages, hflag, hcond]
    simp [maybeRemoveProxy, hp, hflag, hcan]

/-! ### C1 — ObserveProxyAck and proxy removal -/

/-- Claim C1 (counterexample): with the proxy's queue at next-expected 5 and a
valid ObserveProxyAck carrying last_sequence_num 2, the next-expected
number exceeds `last_sequence_num_to_receive`, yet the proxy record is
not erased — so "removes the proxy exactly when the next-expected
sequence number exceeds last_sequence_num_to_receive" is false: the code
erases only when the next-expected number exceeds it by exactly one. -/
theorem claim1_counterexample :
    ¬ (((onObserveProxyAck tNode 10 2).2.1.getPort 10 = none) ↔
        (2 < tPort.message_queue.next_sequence_num)) := by
  decide

/-- Claim C1 (amended): on a valid (nonzero) ObserveProxyAck received by a port
in state Proxying, the node sets `remove_proxy_on_last_message` and
`last_sequence_num_to_receive`, and then erases the proxy exactly when
the queue's next-expected sequence number equals
`last_sequence_num_to_receive + 1` (the source comparison
`last == next - 1`); on erasure an armed `send_on_proxy_removal` message
is forwarded exactly once, and otherwise the record stays in the map with
only those two fields changed and nothing is emitted. -/
theorem claim1_amended (n : Node) (pn : PortName) (p : Port) (k : Nat)
    (hp : n.getPort pn = some p) (hstate : p.state = .proxying)
    (hk : k ≠ kInvalidSequenceNum) :
    (onObserveProxyAck n pn k).1 = OK ∧
    (k = p.message_queue.next_sequence_num - 1 →
      (onObserveProxyAck n pn k).2.1.getPort pn = none ∧
      (∀ x, x ≠ pn → (onObserveProxyAck n pn k).2.1.getPort x = n.getPort x) ∧
      (onObserveProxyAck n pn k).2.2 =
        (match p.send_on_proxy_removal with
         | some pr => [Output.forwardMessage pr.1 pr.2]
         | none => [])) ∧
    (k ≠ p.message_queue.next_sequence_num - 1 →
      (onObserveProxyAck n pn k).2.1.getPort pn =
        some { p with remove_proxy_on_last_message := true,
                      last_sequence_num_to_receive := k } ∧
      (∀ x, x ≠ pn → (onObserveProxyAck n pn k).2.1.getPort x = n.getPort x) ∧
      (onObserveProxyAck n pn k).2.2 = []) := by
  have hne : ¬ (p.state ≠ PortState.proxying) := by simp [hstate]
  have hred : onObserveProxyAck n pn k =
      (OK,
       maybeRemoveProxy (n.setPort pn
         { p with remove_proxy_on_last_message := true,
                  last_sequence_num_to_receive := k }) pn) := by
    simp only [onObserveProxyAck, hp]
    rw [if_neg hne, if_neg hk]
  have hget : (n.setPort pn
      { p with remove_proxy_on_last_message := true,
               last_sequence_num_to_receive := k }).getPort pn =
      some { p with remove_proxy_on_last_message := true,
                    last_sequence_num_to_receive := k } :=
    getPort_setPort_same n pn p _ hp
  have hspec := maybeRemoveProxy_spec _ pn _ hget rfl
  refine ⟨by rw [hred], ?_, ?_⟩
  · intro hcond
    have hrm := hspec.1 (by simpa using hcond)
    rw [hred]
    simp only [hrm]
    refine ⟨getPort_erasePort_same _ pn, ?_, trivial⟩
    intro x hx
    rw [getPort_erasePort_other _ pn x hx, getPort_setPort_other n pn x _ hx]
  · intro hcond
    have hrm := hspec.2 (by simpa using hcond)
    rw [hred]
    simp only [hrm]
    refine ⟨hget, ?_, trivial⟩
    intro x hx
    exact getPort_setPort_other n pn x _ hx

/-- Claim C1 witness: at the concrete proxy fixture (next-expected 5), the ack
carrying 4 = 5 − 1 erases the record. -/
theorem claim1_amended_witness :
    (onObserveProxyAck tNode 10 4).2.1.getPort 10 = none :=
  ((claim1_amended tNode 10 tPort 4 (by decide) (by decide) (by decide)).2.1
    (by decide)).1

/-! ### C2 — ObserveProxy handling -/

/-- The deferred reply stored by a proxy that receives a matching
ObserveProxy: an ObserveProxyAck carrying the invalid sentinel, addressed
to the proxy, paired with the proxy's node. -/
def deferredAck (e : ObserveProxyEventData) : NodeName × Message :=
  (e.proxy_node_name,
   newInternalMessage e.proxy_port_name (.observeProxyAck kInvalidSequenceNum))

/-- Claim C2 (counterexample): a Proxying port (fixture `tPort`, peer 20@2)
receiving ObserveProxy whose proxy identity matches its peer emits
nothing at all — no ObserveProxyAck is sent at this point — and what it
stores in `send_on_proxy_removal` is the ObserveProxyAck message carrying
the invalid sentinel, not a re-emit of ObserveProxy. -/
theorem claim2_counterexample :
    (onObserveProxy tNode 10 tEvt).2.2 = [] ∧
    (onObserveProxy tNode 10 tEvt).2.1.getPort 10 =
      some { tPort with send_on_proxy_removal := some (deferredAck tEvt) } ∧
    (deferredAck tEvt).2.data = EventData.observeProxyAck 0 := by
  decide

/-- Claim C2 (amended): on ObserveProxy at an existing local port: (i) if the
port's peer equals the event's proxy identity and the port is Receiving,
the peer is rewritten to the proxy-to identity and an ObserveProxyAck
carrying `next_sequence_num_to_send − 1` is sent to the proxy; (ii) if
the peer does not match, the event is forwarded unchanged to the current
peer; (iii) if the peer matches but the port is not Receiving, nothing is
sent now: the port stores in `send_on_proxy_removal` the pair
(proxy node, ObserveProxyAck with the invalid sentinel addressed to the
proxy port), to be forwarded when the port itself is removed. -/
theorem claim2_amended (n : Node) (pn : PortName) (p : Port)
    (e : ObserveProxyEventData) (hp : n.getPort pn = some p) :
    (onObserveProxy n pn e).1 = OK ∧
    ((p.peer_node_name = e.proxy_node_name ∧
      p.peer_port_name = e.proxy_port_name) →
      (p.state = .receiving →
        (onObserveProxy n pn e).2.1.getPort pn =
          some { p with peer_node_name := e.proxy_to_node_name,
                        peer_port_name := e.proxy_to_port_name } ∧
        (onObserveProxy n pn e).2.2 =
          [Output.forwardMessage e.proxy_node_name
            (newInternalMessage e.proxy_port_name
              (.observeProxyAck (p.next_sequence_num_to_send - 1)))]) ∧
      (p.state ≠ .receiving →
        (onObserveProxy n pn e).2.1.getPort pn =
          some { p with send_on_proxy_removal := some (deferredAck e) } ∧
        (onObserveProxy n pn e).2.2 = [])) ∧
    (¬ (p.peer_node_name = e.proxy_node_name ∧
        p.peer_port_name = e.proxy_port_name) →
      (onObserveProxy n pn e).2.1 = n ∧
      (onObserveProxy n pn e).2.2 =
        [Output.forwardMessage p.peer_node_name
          (newInternalMessage p.peer_port_name (.observeProxy e))]) := by
  by_cases hmatch : p.peer_node_name = e.proxy_node_name ∧
      p.peer_port_name = e.proxy_port_name
  · by_cases hrecv : p.state = PortState.receiving
    · have hred : onObserveProxy n pn e =
          (OK, n.setPort pn { p with peer_node_name := e.proxy_to_node_name,
                                     peer_port_name := e.proxy_to_port_name },
           [Output.forwardMessage e.proxy_node_name
             (newInternalMessage e.proxy_port_name
               (.observeProxyAck (p.next_sequence_num_to_send - 1)))]) := by
        simp only [onObserveProxy, hp]
        rw [if_pos hmatch, if_pos hrecv]
      refine ⟨by rw [hred], ?_, ?_⟩
      · intro _
        refine ⟨fun _ => ⟨?_, by rw [hred]⟩, fun hc => absurd hrecv hc⟩
        rw [hred]
        exact getPort_setPort_same n pn p _ hp
      · intro hc
        exact absurd hmatch hc
    · have hred : onObserveProxy n pn e =
          (OK, n.setPort pn
            { p with send_on_proxy_removal := some (deferredAck e) }, []) := by
        simp only [onObserveProxy, hp, deferredAck]
        rw [if_pos hmatch, if_neg hrecv]
      refine ⟨by rw [hred], ?_, ?_⟩
      · intro _
        refine ⟨fun hr => absurd hr hrecv, fun _ => ⟨?_, by rw [hred]⟩⟩
        rw [hred]
        exact getPort_setPort_same n pn p _ hp
      · intro hc
        exact absurd hmatch hc
  · have hred : onObserveProxy n pn e =
        (OK, n,
         [Output.forwardMessage p.peer_node_name
           (newInternalMessage p.peer_port_name (.observeProxy e))]) := by
      simp only [onObserveProxy, hp]
      rw [if_neg hmatch]
    exact ⟨by rw [hred], fun hc => absurd hc hmatch,
           fun _ => ⟨by rw [hred], by rw [hred]⟩⟩

/-- Claim C2 witness: at the Receiving fixture `rPort` (send counter 9), the
matching ObserveProxy rewrites the peer to 30@3 and acks with 8. -/
theorem claim2_amended_witness :
    (onObserveProxy rNode 10 tEvt).2.2 =
      [Output.forwardMessage 2
        (newInternalMessage 20 (.observeProxyAck 8))] :=
  (((claim2_amended rNode 10 rPort tEvt (by decide)).2.1
    (by decide)).1 (by decide)).2

/-! ### C6 — ClosePort -/

/-- Claim C6: ClosePort on a non-Receiving port returns PortStateUnexpected and
changes nothing; on a Receiving port it erases the record, leaves every
other port untouched, returns OK, and emits exactly one ObserveClosure
carrying `next_sequence_num_to_send − 1` to the port's peer. -/
theorem claim6_closePort (n : Node) (pn : PortName) (p : Port)
    (hp : n.getPort pn = some p) :
    (p.state ≠ .receiving →
      closePort n pn = (ERROR_PORT_STATE_UNEXPECTED, n, [])) ∧
    (p.state = .receiving →
      (closePort n pn).1 = OK ∧
      (closePort n pn).2.1.getPort pn = none ∧
      (∀ x, x ≠ pn → (closePort n pn).2.1.getPort x = n.getPort x) ∧
      (closePort n pn).2.2 =
        [Output.forwardMessage p.peer_node_name
          (newInternalMessage p.peer_port_name
            (.observeClosure (p.next_sequence_num_to_send - 1)))]) := by
  constructor
  · intro hstate
    simp only [closePort, hp]
    rw [if_pos hstate]
  · intro hstate
    have hns : ¬ (p.state ≠ PortState.receiving) := by simp [hstate]
    have hred : closePort n pn =
        (OK, (n.setPort pn { p with state := PortState.closed }).erasePort pn,
         [Output.forwardMessage p.peer_node_name
           (newInternalMessage p.peer_port_name
             (.observeClosure (p.next_sequence_num_to_send - 1)))]) := by
      simp only [closePort, hp]
      rw [if_neg hns]
    refine ⟨by rw [hred], by rw [hred]; exact getPort_erasePort_same _ pn,
            ?_, by rw [hred]⟩
    intro x hx
    rw [hred]
    simp only
    rw [getPort_erasePort_other _ pn x hx, getPort_setPort_other n pn x _ hx]

/-- Claim C6 witness: closing the Receiving fixture erases it and notifies its
peer with last_sequence_num 8 = 9 − 1. -/
theorem claim6_closePort_witness :
    (closePort rNode 10).2.2 =
      [Output.forwardMessage 2 (newInternalMessage 20 (.observeClosure 8))] :=
  ((claim6_closePort rNode 10 rPort (by decide)).2 (by decide)).2.2.2

/-! ### C7 — self-send prohibition -/

/-- Claim C7: SendMessage on a port whose name occurs among the message's
transferred ports returns CannotSendSelf and leaves the node — in
particular the port's state, peer and send counter — entirely unchanged,
emitting nothing. -/
theorem claim7_send_self (n : Node) (pn : PortName) (m : Message)
    (hmem : pn ∈ m.ports) :
    sendMessage n pn m = (ERROR_PORT_CANNOT_SEND_SELF, n, []) := by
  simp only [sendMessage]
  rw [if_pos hmem]

/-- Claim C7 witness at a concrete input. -/
theorem claim7_send_self_witness :
    sendMessage rNode 10
        { port_name := 0, data := .user 0 [] 0, ports := [10] } =
      (ERROR_PORT_CANNOT_SEND_SELF, rNode, []) :=
  claim7_send_self rNode 10 _ (by decide)

/-! ### C9 — MessageQueue -/

/-- Claim C9: `GetNextMessageIf` returns a message exactly when the heap
minimum's sequence number equals the cursor and the selector accepts it;
the returned message is that minimum, the cursor advances by one (so
consecutive successful pops carry strictly consecutive sequence numbers)
and only that message leaves the heap; in every other case the queue is
returned unchanged.  `AcceptMessage` pushes onto the heap without moving
the cursor and reports `has_next_message` true iff the queue is
signalable and the heap minimum's sequence number equals the cursor. -/
theorem claim9_message_queue (q : MessageQueue) (sel : Message → Bool)
    (m : Message) :
    (∀ mm q2, q.getNextMessageIf sel = (some mm, q2) →
      findMin q.heap = some mm ∧
      mm.sequence_num = q.next_sequence_num ∧
      sel mm = true ∧
      q2.heap = q.heap.erase mm ∧
      q2.next_sequence_num = q.next_sequence_num + 1 ∧
      q2.signalable = q.signalable) ∧
    (∀ q2, q.getNextMessageIf sel = (none, q2) → q2 = q) ∧
    ((q.acceptMessage m).1.heap = m :: q.heap ∧
     (q.acceptMessage m).1.next_sequence_num = q.next_sequence_num ∧
     (q.acceptMessage m).1.signalable = q.signalable ∧
     ((q.acceptMessage m).2 = true ↔
       (q.signalable = true ∧
        ∃ top, findMin (m :: q.heap) = some top ∧
          top.sequence_num = q.next_sequence_num))) := by
  refine ⟨?_, ?_, ?_⟩
  · intro mm q2 h
    unfold MessageQueue.getNextMessageIf at h
    cases hfm : findMin q.heap with
    | none => rw [hfm] at h; simp at h
    | some m0 =>
      rw [hfm] at h
      simp only at h
      by_cases hseq : m0.sequence_num ≠ q.next_sequence_num
      · rw [if_pos hseq] at h; simp at h
      · rw [if_neg hseq] at h
        by_cases hsel : sel m0
        · rw [if_neg (by simp [hsel])] at h
          rw [Prod.ext_iff] at h
          obtain ⟨hm, hq⟩ := h
          simp only [Option.some.injEq] at hm
          subst hm
          subst hq
          push_neg at hseq
          exact ⟨rfl, hseq, hsel, rfl, rfl, rfl⟩
        · rw [if_pos (by simp [hsel])] at h; simp at h
  · intro q2 h
    unfold MessageQueue.getNextMessageIf at h
    cases hfm : findMin q.heap with
    | none =>
      rw [hfm] at h
      simp only [Prod.mk.injEq] at h
      exact h.2.symm
    | some m0 =>
      rw [hfm] at h
      simp only at h
      by_cases hseq : m0.sequence_num ≠ q.next_sequence_num
      · rw [if_pos hseq] at h
        simp only [Prod.mk.injEq] at h
        exact h.2.symm
      · rw [if_neg hseq] at h
        by_cases hsel : sel m0
        · rw [if_neg (by simp [hsel])] at h
          simp at h
        · rw [if_pos (by simp [hsel])] at h
          simp only [Prod.mk.injEq] at h
          exact h.2.symm
  · refine ⟨rfl, rfl, rfl, ?_⟩
    unfold MessageQueue.acceptMessage
    simp only
    by_cases hs : q.signalable
    · rw [if_neg (by simp [hs])]
      cases hfm : findMin (m :: q.heap) with
      | none => exact absurd hfm (findMin_cons_ne_none m q.heap)
      | some top =>
        simp only [decide_eq_true_eq]
        constructor
        · intro htop
          exact ⟨hs, top, rfl, htop⟩
        · rintro ⟨-, top2, htop2, hseq2⟩
          injection htop2 with htop3
          rw [htop3]
          exact hseq2
    · rw [if_pos (by simp [hs])]
      refine ⟨fun hcontra => absurd hcontra (by simp), ?_⟩
      rintro ⟨hs2, -⟩
      exact absurd hs2 hs

/-- Claim C9 witness: a singleton queue at cursor 1 pops its message. -/
theorem claim9_message_queue_witness :
    findMin ({ heap := [userMsg 1 1], next_sequence_num := 1,
               signalable := true } : MessageQueue).heap = some (userMsg 1 1) :=
  ((claim9_message_queue
      { heap := [userMsg 1 1], next_sequence_num := 1, signalable := true }
      (fun _ => true) (userMsg 1 1)).1 (userMsg 1 1)
    { heap := [], next_sequence_num := 2, signalable := true } (by decide)).1

/-! ### C10 — sequence stamping in WillSendMessage -/

/-- True iff the message is a user message. -/
def Message.isUser (m : Message) : Bool :=
  match m.data with
  | .user _ _ _ => true
  | _ => false

theorem sequence_num_withSequenceNum (m : Message) (s : Nat)
    (hu : m.isUser = true) : (m.withSequenceNum s).sequence_num = s := by
  obtain ⟨pn0, d0, ps0⟩ := m
  cases d0 with
  | user a b c => rfl
  | portAccepted => simp [Message.isUser] at hu
  | observeProxy d => simp [Message.isUser] at hu
  | observeProxyAck k => simp [Message.isUser] at hu
  | observeClosure k => simp [Message.isUser] at hu

theorem sequence_num_withDest (m : Message) (pn : PortName) :
    (m.withDest pn).sequence_num = m.sequence_num := rfl

theorem sequence_num_withPD (m : Message) (names : List PortName)
    (descs : List PortDescriptor) :
    (m.withPortsAndDescriptors names descs).sequence_num = m.sequence_num := by
  unfold Message.withPortsAndDescriptors Message.sequence_num
  cases m.data <;> rfl

theorem ports_withSequenceNum (m : Message) (s : Nat) :
    (m.withSequenceNum s).ports = m.ports := rfl

/-- Claim C10: a user message passing through `WillSendMessage_Locked`
successfully is stamped with the port's `next_sequence_num_to_send`
(which is then incremented) exactly when its sequence number field is 0;
a message that already carries a nonzero sequence number — in particular
one re-forwarded by a Proxying port — keeps it, and the forwarding port's
send counter is not advanced. -/
theorem claim10_forward_stamping (n : Node) (p : Port) (m : Message)
    (hu : m.isUser = true)
    (hok : (willSendMessage n p m).1 = OK) :
    (m.sequence_num ≠ 0 →
      (willSendMessage n p m).2.2.2.sequence_num = m.sequence_num ∧
      (willSendMessage n p m).2.2.1.next_sequence_num_to_send =
        p.next_sequence_num_to_send) ∧
    (m.sequence_num = 0 →
      (willSendMessage n p m).2.2.2.sequence_num = p.next_sequence_num_to_send ∧
      (willSendMessage n p m).2.2.1.next_sequence_num_to_send =
        p.next_sequence_num_to_send + 1) := by
  by_cases hz : m.sequence_num = 0
  · refine ⟨fun hc => absurd hz hc, fun _ => ?_⟩
    by_cases hemp : (m.withSequenceNum p.next_sequence_num_to_send).ports.isEmpty
    · have hred : willSendMessage n p m =
          (OK, n,
           { p with next_sequence_num_to_send := p.next_sequence_num_to_send + 1 },
           ((m.withSequenceNum p.next_sequence_num_to_send).withDest
             p.peer_port_name)) := by
        simp only [willSendMessage, if_pos hz]
        rw [if_pos hemp]
      rw [hred]
      exact ⟨sequence_num_withSequenceNum m _ hu, rfl⟩
    · rcases hv : lockAndValidate p.peer_port_name n
          (m.withSequenceNum p.next_sequence_num_to_send).ports 0 with ⟨rv, n1⟩
      by_cases hrv : rv = OK
      · have hred : willSendMessage n p m =
            (OK,
             unlockAll (takePorts p.peer_node_name n1
                 (m.withSequenceNum p.next_sequence_num_to_send).ports).1
               (takePorts p.peer_node_name n1
                 (m.withSequenceNum p.next_sequence_num_to_send).ports).2.1,
             { p with next_sequence_num_to_send := p.next_sequence_num_to_send + 1 },
             (((m.withSequenceNum p.next_sequence_num_to_send).withPortsAndDescriptors
                 (takePorts p.peer_node_name n1
                   (m.withSequenceNum p.next_sequence_num_to_send).ports).2.1
                 (takePorts p.peer_node_name n1
                   (m.withSequenceNum p.next_sequence_num_to_send).ports).2.2).withDest
               p.peer_port_name)) := by
          simp only [willSendMessage, if_pos hz]
          rw [if_neg hemp, hv]
          rw [if_neg (by simp [hrv])]
        rw [hred]
        refine ⟨?_, rfl⟩
        rw [sequence_num_withDest, sequence_num_withPD,
            sequence_num_withSequenceNum m _ hu]
      · exfalso
        have hbad : (willSendMessage n p m).1 = rv := by
          simp only [willSendMessage, if_pos hz]
          rw [if_neg hemp, hv]
          rw [if_pos (by simp [hrv])]
        rw [hok] at hbad
        exact hrv hbad.symm
  · -- nonzero sequence number: no stamping, counter untouched
    refine ⟨fun _ => ?_, fun hc => absurd hc hz⟩
    by_cases hemp : m.ports.isEmpty
    · have hred : willSendMessage n p m =
          (OK, n, p, m.withDest p.peer_port_name) := by
        simp only [willSendMessage, if_neg hz]
        rw [if_pos hemp]
      rw [hred]
      exact ⟨rfl, rfl⟩
    · rcases hv : lockAndValidate p.peer_port_name n m.ports 0 with ⟨rv, n1⟩
      by_cases hrv : rv = OK
      · have hred : willSendMessage n p m =
            (OK,
             unlockAll (takePorts p.peer_node_name n1 m.ports).1
               (takePorts p.peer_node_name n1 m.ports).2.1,
             p,
             ((m.withPortsAndDescriptors
                 (takePorts p.peer_node_name n1 m.ports).2.1
                 (takePorts p.peer_node_name n1 m.ports).2.2).withDest
               p.peer_port_name)) := by
          simp only [willSendMessage, if_neg hz]
          rw [if_neg hemp, hv]
          rw [if_neg (by simp [hrv])]
        rw [hred]
        exact ⟨by rw [sequence_num_withDest, sequence_num_withPD], rfl⟩
      · exfalso
        have hbad : (willSendMessage n p m).1 = rv := by
          simp only [willSendMessage, if_neg hz]
          rw [if_neg hemp, hv]
          rw [if_pos (by simp [hrv])]
        rw [hok] at hbad
        exact hrv hbad.symm

/-- Claim C10 witness: a message already stamped 5 keeps its number and leaves
the counter 9 untouched. -/
theorem claim10_forward_stamping_witness :
    (willSendMessage tNode rPort (userMsg 20 5)).2.2.2.sequence_num =
      (userMsg 20 5).sequence_num ∧
    (willSendMessage tNode rPort (userMsg 20 5)).2.2.1.next_sequence_num_to_send =
      rPort.next_sequence_num_to_send :=
  (claim10_forward_stamping tNode rPort (userMsg 20 5) (by decide)
    (by decide)).1 (by decide)

/-! ### C5 — failed port hand-off in WillSendMessage -/

/-- The sending port for the C5 scenario: Receiving, peered with 99@7,
send counter 5. -/
def sPort : Port :=
  { tPort with state := .receiving, peer_node_name := 7, peer_port_name := 99,
               next_sequence_num_to_send := 5 }

/-- First embedded port: a valid Receiving port. -/
def ePort0 : Port :=
  { tPort with state := .receiving, peer_node_name := 4, peer_port_name := 40 }

/-- Second embedded port: Buffering, so taking it fails with
PortStateUnexpected. -/
def ePort1 : Port :=
  { tPort with state := .buffering, peer_node_name := 4, peer_port_name := 41 }

def c5Node : Node :=
  { name := 1, ports := [(10, sPort), (11, ePort0), (12, ePort1)],
    next_random := 100 }

def c5Desc : PortDescriptor :=
  { peer_node_name := 0, peer_port_name := 0, referring_node_name := 0,
    referring_port_name := 0, next_sequence_num_to_send := 0,
    next_sequence_num_to_receive := 0 }

/-- A fresh user message carrying ports 11 and 12. -/
def c5Msg : Message :=
  { port_name := 0, data := .user 0 [c5Desc, c5Desc] 77, ports := [11, 12] }

/-- Claim C5: evaluation of the failing hand-off.  Port 12 (Buffering) fails
validation at index 1; the source then runs
`for (j = 0; j <= 1; ++j) ports[1]->lock.unlock();` — the loop index `j`
is unused, so port 12's lock is released twice (the second being an
unlock of an unheld mutex) and port 11's lock is never released (its hold
count stays 1).  The error is returned, the sender's
`next_sequence_num_to_send` is rolled back to 5, and the embedded ports'
state, peer identity and name are unmodified; but the claim's (and the
spec's) "all locks taken so far are released" is violated. -/
theorem claim5_lock_leak_eval :
    (sendMessage c5Node 10 c5Msg).1 = ERROR_PORT_STATE_UNEXPECTED ∧
    ((sendMessage c5Node 10 c5Msg).2.1.getPort 11 =
      some { ePort0 with lock_count := 1 }) ∧
    ((sendMessage c5Node 10 c5Msg).2.1.getPort 12 = some ePort1) ∧
    ((sendMessage c5Node 10 c5Msg).2.1.getPort 10 = some sPort) ∧
    (sendMessage c5Node 10 c5Msg).2.2 = [] := by
  decide

/-! ### C3 — closure draining -/

/-- A gap-free run of queued user messages with sequence numbers
c, c+1, …, c+num−1. -/
def drainHeap (c num : Nat) : List Message :=
  (List.range num).map (fun i => userMsg 10 (c + i))

/-- A Receiving port that has observed closure at `l`, with queue cursor
`c` and the run `drainHeap c num` queued. -/
def drainPort (c num l : Nat) : Port :=
  { state := .receiving, peer_node_name := 2, peer_port_name := 20,
    next_sequence_num_to_send := 1, last_sequence_num_to_receive := l,
    message_queue := { heap := drainHeap c num, next_sequence_num := c,
                       signalable := true },
    remove_proxy_on_last_message := false, peer_closed := true,
    send_on_proxy_removal := none, outgoing_messages := [],
    outgoing_ports := [], lock_count := 0 }

def drainNode (c num l : Nat) : Node :=
  { name := 1, ports := [(10, drainPort c num l)], next_random := 0 }

theorem userMsg_sequence_num (d : PortName) (s : Nat) :
    (userMsg d s).sequence_num = s := rfl

theorem drainHeap_succ (c k : Nat) :
    drainHeap c (k + 1) = userMsg 10 c :: drainHeap (c + 1) k := by
  unfold drainHeap
  rw [List.range_succ_eq_map]
  simp only [List.map_cons, List.map_map, Nat.add_zero]
  congr 1
  apply List.map_congr_left
  intro i _
  simp only [Function.comp]
  congr 1
  omega

theorem drainHeap_seq_le (a b : Nat) :
    ∀ x ∈ drainHeap a b, a ≤ x.sequence_num := by
  intro x hx
  unfold drainHeap at hx
  simp only [List.mem_map, List.mem_range] at hx
  obtain ⟨i, _, rfl⟩ := hx
  rw [userMsg_sequence_num]
  omega

/-- One successful GetMessage step on the drain fixture. -/
theorem drain_step (c k l : Nat) (hc : 1 ≤ c) (hl : l + 1 = c + (k + 1)) :
    getMessageIf (drainNode c (k + 1) l) 10 (fun _ => true) =
      (OK, drainNode (c + 1) k l, some (userMsg 10 c)) := by
  have hget : (drainNode c (k + 1) l).getPort 10 = some (drainPort c (k + 1) l) := rfl
  have hcan : canAcceptMoreMessages (drainPort c (k + 1) l) = true := by
    simp only [canAcceptMoreMessages, drainPort]
    simp only [Bool.true_or, if_true]
    rw [if_neg (by omega)]
  have hpop : (drainPort c (k + 1) l).message_queue.getNextMessageIf
      (fun _ => true) =
      (some (userMsg 10 c),
       { heap := drainHeap (c + 1) k, next_sequence_num := c + 1,
         signalable := true }) := by
    unfold MessageQueue.getNextMessageIf
    have hheap : (drainPort c (k + 1) l).message_queue.heap =
        userMsg 10 c :: drainHeap (c + 1) k := by
      show drainHeap c (k + 1) = _
      exact drainHeap_succ c k
    rw [hheap]
    rw [findMin_cons_of_min (userMsg 10 c) (drainHeap (c + 1) k)
      (by intro x hx
          rw [userMsg_sequence_num]
          exact le_trans (by omega) (drainHeap_seq_le (c + 1) k x hx))]
    simp only [userMsg_sequence_num]
    rw [if_neg (by
      show ¬ ¬ (c = (drainPort c (k + 1) l).message_queue.next_sequence_num)
      simp [drainPort])]
    rw [if_neg (by simp)]
    rw [List.erase_cons_head]
    rfl
  have hsetp : (drainNode c (k + 1) l).setPort 10
      { drainPort c (k + 1) l with message_queue :=
        { heap := drainHeap (c + 1) k, next_sequence_num := c + 1,
          signalable := true } } = drainNode (c + 1) k l := by
    simp [drainNode, Node.setPort, setEntries, drainPort]
  simp only [getMessageIf, hget]
  rw [if_neg (by simp [drainPort])]
  rw [if_neg (by simp [hcan])]
  rw [hpop]
  simp only
  rw [hsetp]
  rfl

/-- One unfolding step of `drainAux`. -/
theorem drainAux_succ (fuel : Nat) (n : Node) (pn : PortName) :
    drainAux (fuel + 1) n pn =
      (match (getMessageIf n pn (fun _ => true)).2.2 with
       | some m =>
         (m :: (drainAux fuel (getMessageIf n pn (fun _ => true)).2.1 pn).1,
          (drainAux fuel (getMessageIf n pn (fun _ => true)).2.1 pn).2)
       | none => ([], (getMessageIf n pn (fun _ => true)).1)) := rfl

/-- Claim C3: for a Receiving port that has observed ObserveClosure with
last_sequence_num `l` and whose queue holds exactly the expected run of
messages numbered c … l (so `l + 1 = c + num`), repeated GetMessage
surfaces exactly those `num = l − c + 1` messages, in order, and then —
exactly then — returns PeerClosed. -/
theorem claim3_closure_draining (num : Nat) : ∀ c l : Nat, 1 ≤ c →
    l + 1 = c + num →
    drainAux (num + 1) (drainNode c num l) 10 =
      (drainHeap c num, ERROR_PORT_PEER_CLOSED) := by
  induction num with
  | zero =>
    intro c l hc hl
    have hget : (drainNode c 0 l).getPort 10 = some (drainPort c 0 l) := rfl
    have hcan : canAcceptMoreMessages (drainPort c 0 l) = false := by
      simp only [canAcceptMoreMessages, drainPort]
      simp only [Bool.true_or, if_true]
      rw [if_pos (by omega)]
    have hstep : getMessageIf (drainNode c 0 l) 10 (fun _ => true) =
        (ERROR_PORT_PEER_CLOSED, drainNode c 0 l, none) := by
      simp only [getMessageIf, hget]
      rw [if_neg (by simp [drainPort])]
      rw [if_pos (by simp [hcan])]
    rw [drainAux_succ, hstep]
    simp [drainHeap]
  | succ k ih =>
    intro c l hc hl
    have hstep := drain_step c k l hc hl
    rw [drainAux_succ, hstep]
    simp only
    rw [ih (c + 1) l (by omega) (by omega)]
    rw [← drainHeap_succ c k]

/-- Claim C3 witness: cursor 1, closure at 2, messages 1 and 2 queued: both are
surfaced, then PeerClosed. -/
theorem claim3_closure_draining_witness :
    drainAux 3 (drainNode 1 2 2) 10 = (drainHeap 1 2, ERROR_PORT_PEER_CLOSED) :=
  claim3_closure_draining 2 1 2 (by decide) (by decide)

/-! ### C4 — PortAccepted -/

/-- One unfolding step of `forwardMessagesAux`. -/
theorem forwardMessagesAux_succ (fuel : Nat) (n : Node) (p : Port) :
    forwardMessagesAux (fuel + 1) n p =
      (let g := p.message_queue.getNextMessageIf (fun _ => true)
       match g.1 with
       | none => (OK, n, p, [])
       | some m =>
         let p1 := { p with message_queue := g.2 }
         let w := willSendMessage n p1 m
         if w.1 ≠ OK then (w.1, w.2.1, w.2.2.1, [])
         else
           let res := forwardMessagesAux fuel w.2.1 w.2.2.1
           (res.1, res.2.1, res.2.2.1,
            Output.forwardMessage w.2.2.1.peer_node_name w.2.2.2 :: res.2.2.2)) := rfl

/-- `WillSendMessage_Locked` on an already-stamped message carrying no
ports: only the header destination is rewritten. -/
theorem willSendMessage_simple (n : Node) (p : Port) (m : Message)
    (hz : m.sequence_num ≠ 0) (hemp : m.ports = []) :
    willSendMessage n p m = (OK, n, p, m.withDest p.peer_port_name) := by
  simp only [willSendMessage, if_neg hz]
  rw [if_pos (by simp [hemp])]

/-- Pop of the head of a drain-run queue (generalized over the port). -/
theorem drainQueue_pop (c k : Nat) (q : MessageQueue)
    (hq : q = { heap := drainHeap c (k + 1), next_sequence_num := c,
                signalable := true }) :
    q.getNextMessageIf (fun _ => true) =
      (some (userMsg 10 c),
       { heap := drainHeap (c + 1) k, next_sequence_num := c + 1,
         signalable := true }) := by
  subst hq
  unfold MessageQueue.getNextMessageIf
  simp only
  rw [drainHeap_succ c k]
  rw [findMin_cons_of_min (userMsg 10 c) (drainHeap (c + 1) k)
    (by intro x hx
        rw [userMsg_sequence_num]
        exact le_trans (by omega) (drainHeap_seq_le (c + 1) k x hx))]
  simp only [userMsg_sequence_num]
  rw [if_neg (by simp)]
  rw [if_neg (by simp)]
  rw [List.erase_cons_head]

/-- The outputs of forwarding a drain run. -/
def fwdOuts (c num : Nat) (pn : NodeName) (pp : PortName) : List Output :=
  (List.range num).map
    (fun i => Output.forwardMessage pn ((userMsg 10 (c + i)).withDest pp))

theorem fwdOuts_succ (c k : Nat) (pn : NodeName) (pp : PortName) :
    fwdOuts c (k + 1) pn pp =
      Output.forwardMessage pn ((userMsg 10 c).withDest pp) ::
        fwdOuts (c + 1) k pn pp := by
  unfold fwdOuts
  rw [List.range_succ_eq_map]
  simp only [List.map_cons, List.map_map, Nat.add_zero]
  congr 1
  apply List.map_congr_left
  intro i _
  simp only [Function.comp]
  congr 3
  omega

/-- `ForwardMessages_Locked` on a port whose queue holds exactly the run
c … c+num−1 of port-free user messages: every one of them is popped in
order, stamped destination rewritten to the port's peer, and forwarded to
the peer node; the node map and all other port fields are untouched and
the cursor ends at c+num. -/
theorem forwardRun (num : Nat) : ∀ (c : Nat) (n : Node) (p : Port), 1 ≤ c →
    p.message_queue = { heap := drainHeap c num, next_sequence_num := c,
                        signalable := true } →
    forwardMessagesAux num n p =
      (OK, n,
       { p with message_queue := { heap := [], next_sequence_num := c + num,
                                   signalable := true } },
       fwdOuts c num p.peer_node_name p.peer_port_name) := by
  induction num with
  | zero =>
    intro c n p hc hq
    have hq2 : ({ heap := [], next_sequence_num := c + 0,
                  signalable := true } : MessageQueue) = p.message_queue := by
      rw [hq]
      simp [drainHeap]
    simp only [forwardMessagesAux, fwdOuts, List.range_zero, List.map_nil]
    rw [hq2]
  | succ k ih =>
    intro c n p hc hq
    have hpop := drainQueue_pop c k p.message_queue hq
    rw [forwardMessagesAux_succ]
    simp only [hpop]
    have hw := willSendMessage_simple n
      { p with message_queue :=
        { heap := drainHeap (c + 1) k, next_sequence_num := c + 1,
          signalable := true } }
      (userMsg 10 c) (by rw [userMsg_sequence_num]; omega) rfl
    rw [hw]
    simp only [ne_eq, not_true_eq_false, if_false, ite_false]
    rw [ih (c + 1) n _ (by omega) rfl]
    rw [fwdOuts_succ]
    rw [show c + 1 + k = c + (k + 1) from by omega]

/-- The C4 fixture port: parameterized state, removal flag and terminal
number, peered with 20@2, with the run `drainHeap c num` queued. -/
def c4Port (c num : Nat) (st : PortState) (b : Bool) (l : Nat) : Port :=
  { state := st, peer_node_name := 2, peer_port_name := 20,
    next_sequence_num_to_send := 7, last_sequence_num_to_receive := l,
    message_queue := { heap := drainHeap c num, next_sequence_num := c,
                       signalable := true },
    remove_proxy_on_last_message := b, peer_closed := false,
    send_on_proxy_removal := none, outgoing_messages := [],
    outgoing_ports := [], lock_count := 0 }

def c4Node (c num : Nat) (st : PortState) (b : Bool) (l : Nat) : Node :=
  { name := 1, ports := [(10, c4Port c num st b l)], next_random := 0 }

/-- Claim C4: on PortAccepted at an existing port: a non-Buffering port fails
with PortStateUnexpected and nothing changes; a Buffering port becomes
Proxying, every queued in-order message is forwarded to the current peer
(in sequence order, destination rewritten to the peer port), and then: if
`remove_proxy_on_last_message` was not yet armed, exactly one
ObserveProxy (naming this port as proxy and its peer as proxy-to) is
emitted to the peer; if it was armed, no ObserveProxy is emitted and the
node proceeds to MaybeRemoveProxy, erasing the port iff the drained
cursor c+num equals `last_sequence_num_to_receive + 1`. -/
theorem claim4_port_accepted (c num l : Nat) (st : PortState) (b : Bool)
    (hc : 1 ≤ c) :
    (st ≠ .buffering →
      onPortAccepted (c4Node c num st b l) 10 =
        (ERROR_PORT_STATE_UNEXPECTED, c4Node c num st b l, [])) ∧
    (st = .buffering →
      (onPortAccepted (c4Node c num st b l) 10).1 = OK ∧
      (b = false →
        (onPortAccepted (c4Node c num st b l) 10).2.2 =
          fwdOuts c num 2 20 ++
            [Output.forwardMessage 2
              (newInternalMessage 20
                (.observeProxy
                  { proxy_node_name := 1, proxy_port_name := 10,
                    proxy_to_node_name := 2, proxy_to_port_name := 20 }))] ∧
        (onPortAccepted (c4Node c num st b l) 10).2.1.getPort 10 =
          some { c4Port c num .buffering b l with
                 state := .proxying,
                 message_queue := { heap := [], next_sequence_num := c + num,
                                    signalable := true } }) ∧
      (b = true →
        (onPortAccepted (c4Node c num st b l) 10).2.2 = fwdOuts c num 2 20 ∧
        (l = c + num - 1 →
          (onPortAccepted (c4Node c num st b l) 10).2.1.getPort 10 = none) ∧
        (l ≠ c + num - 1 →
          (onPortAccepted (c4Node c num st b l) 10).2.1.getPort 10 =
            some { c4Port c num .buffering b l with
                   state := .proxying,
                   message_queue := { heap := [],
                                      next_sequence_num := c + num,
                                      signalable := true } }))) := by
  constructor
  · intro hst
    have hget : (c4Node c num st b l).getPort 10 = some (c4Port c num st b l) := rfl
    simp only [onPortAccepted, hget]
    rw [if_pos (by simpa [c4Port] using hst)]
  · intro hst
    subst hst
    have hget : (c4Node c num .buffering b l).getPort 10 =
        some (c4Port c num .buffering b l) := rfl
    have hlen : ({ c4Port c num .buffering b l with
        state := PortState.proxying } : Port).message_queue.heap.length = num := by
      simp [c4Port, drainHeap]
    have hfwd := forwardRun num c (c4Node c num .buffering b l)
      { c4Port c num .buffering b l with state := PortState.proxying }
      hc rfl
    have hred : onPortAccepted (c4Node c num .buffering b l) 10 =
        (let f := forwardMessages (c4Node c num .buffering b l)
            { c4Port c num .buffering b l with state := PortState.proxying }
         if f.1 ≠ OK then (f.1, f.2.1.setPort 10 f.2.2.1, f.2.2.2)
         else
           let n1 := f.2.1.setPort 10 f.2.2.1
           if f.2.2.1.remove_proxy_on_last_message then
             let r := maybeRemoveProxy n1 10
             (OK, r.1, f.2.2.2 ++ r.2)
           else (OK, n1, f.2.2.2 ++ initiateProxyRemoval n1 10)) := by
      simp only [onPortAccepted, hget]
      rw [if_neg (by simp [c4Port])]
    rw [hred]
    simp only [forwardMessages, hlen, hfwd]
    simp only [ne_eq, not_true_eq_false, if_false, ite_false]
    cases b with
    | false =>
      refine ⟨rfl, fun _ => ⟨?_, ?_⟩, fun hb => Bool.noConfusion hb⟩
      · simp [initiateProxyRemoval, Node.setPort, Node.getPort, setEntries,
              lookupPort, c4Node, c4Port, fwdOuts]
      · simp [Node.setPort, Node.getPort, setEntries, lookupPort, c4Node, c4Port]
    | true =>
      refine ⟨rfl, fun hb => Bool.noConfusion hb, fun _ => ?_⟩
      by_cases hl : l = c + num - 1
      · refine ⟨?_, fun _ => ?_, fun hne => absurd hl hne⟩
        · simp [maybeRemoveProxy, Node.setPort, Node.getPort, setEntries,
                lookupPort, c4Node, c4Port, canAcceptMoreMessages, hl,
                Node.erasePort, eraseEntries]
        · simp [maybeRemoveProxy, Node.setPort, Node.getPort, setEntries,
                lookupPort, c4Node, c4Port, canAcceptMoreMessages, hl,
                Node.erasePort, eraseEntries]
      · refine ⟨?_, fun heq => absurd heq hl, fun _ => ?_⟩
        · simp [maybeRemoveProxy, Node.setPort, Node.getPort, setEntries,
                lookupPort, c4Node, c4Port, canAcceptMoreMessages, hl]
        · simp [maybeRemoveProxy, Node.setPort, Node.getPort, setEntries,
                lookupPort, c4Node, c4Port, canAcceptMoreMessages, hl]

/-- Claim C4 witness: two queued messages (5, 6), flag not armed: both are
forwarded to 20@2 and one ObserveProxy follows. -/
theorem claim4_port_accepted_witness :
    (onPortAccepted (c4Node 5 2 PortState.buffering false 0) 10).2.2 =
      fwdOuts 5 2 2 20 ++
        [Output.forwardMessage 2
          (newInternalMessage 20
            (.observeProxy
              { proxy_node_name := 1, proxy_port_name := 10,
                proxy_to_node_name := 2, proxy_to_port_name := 20 }))] :=
  (((claim4_port_accepted 5 2 0 PortState.buffering false (by decide)).2
    rfl).2.1 rfl).1

/-! ### C8 — user message for an unknown port -/

theorem lookup_append (l1 l2 : List (PortName × Port)) (x : PortName) :
    lookupPort (l1 ++ l2) x =
      (match lookupPort l1 x with
       | some p => some p
       | none => lookupPort l2 x) := by
  induction l1 with
  | nil => simp [lookupPort]
  | cons a rest ih =>
    by_cases ha : a.1 = x
    · simp [lookupPort, ha]
    · simp only [List.cons_append, lookupPort, if_neg ha]
      exact ih

theorem set_of_lookup_none (l : List (PortName × Port)) (x : PortName) (p : Port)
    (h : lookupPort l x = none) : setEntries l x p = l := by
  induction l with
  | nil => rfl
  | cons a rest ih =>
    by_cases ha : a.1 = x
    · rw [lookupPort, if_pos ha] at h
      exact absurd h (by simp)
    · rw [lookupPort, if_neg ha] at h
      rw [setEntries, if_neg ha, ih h]

theorem erase_of_lookup_none (l : List (PortName × Port)) (x : PortName)
    (h : lookupPort l x = none) : eraseEntries l x = l := by
  induction l with
  | nil => rfl
  | cons a rest ih =>
    by_cases ha : a.1 = x
    · rw [lookupPort, if_pos ha] at h
      exact absurd h (by simp)
    · rw [lookupPort, if_neg ha] at h
      rw [eraseEntries, if_neg ha, ih h]

theorem setEntries_append (l1 l2 : List (PortName × Port)) (x : PortName)
    (p : Port) :
    setEntries (l1 ++ l2) x p = setEntries l1 x p ++ setEntries l2 x p := by
  induction l1 with
  | nil => rfl
  | cons a rest ih =>
    simp only [List.cons_append, setEntries]
    by_cases ha : a.1 = x
    · rw [if_pos ha, if_pos ha]
      exact congrArg _ ih
    · rw [if_neg ha, if_neg ha]
      exact congrArg _ ih

theorem eraseEntries_append (l1 l2 : List (PortName × Port)) (x : PortName) :
    eraseEntries (l1 ++ l2) x = eraseEntries l1 x ++ eraseEntries l2 x := by
  induction l1 with
  | nil => rfl
  | cons a rest ih =>
    simp only [List.cons_append, eraseEntries]
    by_cases ha : a.1 = x
    · rw [if_pos ha, if_pos ha]
      exact ih
    · rw [if_neg ha, if_neg ha]
      exact congrArg _ ih

/-- The record `Node::AcceptPort` creates for a descriptor: Receiving,
peered as the descriptor says, queue cursor at the descriptor's receive
counter and not signalable. -/
def acceptedPort (d : PortDescriptor) : Port :=
  { mkPort d.next_sequence_num_to_send d.next_sequence_num_to_receive with
    state := .receiving
    peer_node_name := d.peer_node_name
    peer_port_name := d.peer_port_name
    message_queue := { heap := [],
                       next_sequence_num := d.next_sequence_num_to_receive,
                       signalable := false } }

theorem acceptPort_fresh (n : Node) (q : PortName) (d : PortDescriptor)
    (h : n.getPort q = none) :
    acceptPort n q d =
      (OK, { n with ports := n.ports ++ [(q, acceptedPort d)] },
       [Output.forwardMessage d.referring_node_name
         (newInternalMessage d.referring_port_name .portAccepted)]) := by
  rw [Node.getPort] at h
  simp only [acceptPort, Node.addPortWithName, acceptedPort, h,
             Option.isSome_none, Bool.false_eq_true, if_false, ite_false]
  simp [OK]

/-- The `AcceptPort` loop of `OnUserMessage` on globally fresh, distinct
embedded names: appends one Receiving record per descriptor and emits one
PortAccepted event per descriptor, in order. -/
theorem acceptLoop_spec (pairs : List (PortName × PortDescriptor)) :
    ∀ n : Node, (∀ pr ∈ pairs, n.getPort pr.1 = none) →
    (pairs.map Prod.fst).Nodup →
    acceptPortsLoop n pairs =
      (OK,
       { n with ports :=
           n.ports ++ pairs.map (fun pr => (pr.1, acceptedPort pr.2)) },
       pairs.map (fun pr =>
         Output.forwardMessage pr.2.referring_node_name
           (newInternalMessage pr.2.referring_port_name .portAccepted))) := by
  induction pairs with
  | nil =>
    intro n _ _
    simp [acceptPortsLoop]
  | cons hd rest ih =>
    intro n hfresh hnodup
    have hfhd : n.getPort hd.1 = none := hfresh hd (by simp)
    have hstep := acceptPort_fresh n hd.1 hd.2 hfhd
    have hfrest : ∀ pr ∈ rest,
        ({ n with ports := n.ports ++ [(hd.1, acceptedPort hd.2)] } : Node).getPort
          pr.1 = none := by
      intro pr hpr
      have h1 : n.getPort pr.1 = none := hfresh pr (by simp [hpr])
      have hne : hd.1 ≠ pr.1 := by
        simp only [List.map_cons, List.nodup_cons, List.mem_map] at hnodup
        intro heq
        exact hnodup.1 ⟨pr, hpr, heq.symm⟩
      rw [Node.getPort] at h1 ⊢
      simp only
      rw [lookup_append, h1]
      simp [lookupPort, hne]
    have hrest := ih { n with ports := n.ports ++ [(hd.1, acceptedPort hd.2)] }
      hfrest (by simpa [List.nodup_cons] using hnodup.of_cons)
    simp only [acceptPortsLoop, hstep]
    rw [if_neg (by simp)]
    rw [hrest]
    simp [List.append_assoc]

theorem lookup_map_accepted_none (hd1 : PortName)
    (rest : List (PortName × PortDescriptor))
    (hne : ∀ pr ∈ rest, hd1 ≠ pr.1) :
    lookupPort (rest.map (fun pr => (pr.1, acceptedPort pr.2))) hd1 = none := by
  induction rest with
  | nil => rfl
  | cons r2 rest2 ih =>
    simp only [List.map_cons, lookupPort]
    rw [if_neg (fun hc => hne r2 (by simp) hc.symm)]
    exact ih (fun pr hpr => hne pr (by simp [hpr]))

/-- The cleanup loop of `OnUserMessage`: closing the freshly accepted
ports removes exactly them and emits one ObserveClosure per descriptor,
carrying the descriptor's `next_sequence_num_to_send − 1`, to the
descriptor's peer. -/
theorem closeLoop_spec (pairs : List (PortName × PortDescriptor)) :
    ∀ (n : Node) (base : List (PortName × Port)),
    n.ports = base ++ pairs.map (fun pr => (pr.1, acceptedPort pr.2)) →
    (∀ pr ∈ pairs, lookupPort base pr.1 = none) →
    (pairs.map Prod.fst).Nodup →
    closeReceivedPorts n (pairs.map Prod.fst) =
      ({ n with ports := base },
       pairs.map (fun pr =>
         Output.forwardMessage pr.2.peer_node_name
           (newInternalMessage pr.2.peer_port_name
             (.observeClosure (pr.2.next_sequence_num_to_send - 1))))) := by
  induction pairs with
  | nil =>
    intro n base hports _ _
    simp only [List.map_nil, closeReceivedPorts]
    rw [show base = n.ports from by rw [hports]; simp]
  | cons hd rest ih =>
    intro n base hports hfresh hnodup
    have hlkbase : lookupPort base hd.1 = none := hfresh hd (by simp)
    have hne : ∀ pr ∈ rest, hd.1 ≠ pr.1 := by
      intro pr hpr heq
      simp only [List.map_cons, List.nodup_cons, List.mem_map] at hnodup
      exact hnodup.1 ⟨pr, hpr, heq.symm⟩
    have hlkrest : lookupPort
        (rest.map (fun pr => (pr.1, acceptedPort pr.2))) hd.1 = none :=
      lookup_map_accepted_none hd.1 rest hne
    have hget : n.getPort hd.1 = some (acceptedPort hd.2) := by
      rw [Node.getPort, hports, lookup_append, hlkbase]
      simp [lookupPort]
    have hclose : closePort n hd.1 =
        (OK,
         { n with ports := base ++
             rest.map (fun pr => (pr.1, acceptedPort pr.2)) },
         [Output.forwardMessage hd.2.peer_node_name
           (newInternalMessage hd.2.peer_port_name
             (.observeClosure (hd.2.next_sequence_num_to_send - 1)))]) := by
      have hset1 : setEntries ((hd.1, acceptedPort hd.2) ::
          rest.map (fun pr => (pr.1, acceptedPort pr.2))) hd.1
          { acceptedPort hd.2 with state := PortState.closed } =
          (hd.1, { acceptedPort hd.2 with state := PortState.closed }) ::
            rest.map (fun pr => (pr.1, acceptedPort pr.2)) := by
        simp only [setEntries]
        rw [if_pos trivial, set_of_lookup_none _ hd.1 _ hlkrest]
      have herase1 : eraseEntries
          ((hd.1, { acceptedPort hd.2 with state := PortState.closed }) ::
            rest.map (fun pr => (pr.1, acceptedPort pr.2))) hd.1 =
          rest.map (fun pr => (pr.1, acceptedPort pr.2)) := by
        simp only [eraseEntries]
        rw [if_pos trivial, erase_of_lookup_none _ hd.1 hlkrest]
      simp only [closePort, hget]
      rw [if_neg (by simp [acceptedPort, mkPort])]
      simp only [Node.setPort, Node.erasePort, hports, List.map_cons]
      rw [setEntries_append, set_of_lookup_none base hd.1 _ hlkbase, hset1,
          eraseEntries_append, erase_of_lookup_none base hd.1 hlkbase, herase1]
      simp [acceptedPort, mkPort]
    have hrest := ih
      { n with ports := base ++ rest.map (fun pr => (pr.1, acceptedPort pr.2)) }
      base rfl (fun pr hpr => hfresh pr (by simp [hpr]))
      (by simpa [List.nodup_cons] using hnodup.of_cons)
    simp only [List.map_cons, closeReceivedPorts, hclose]
    rw [hrest]
    rfl

/-- Claim C8: a user message whose destination port is unknown to the node, but
which embeds transferred ports (all names globally fresh and distinct),
still creates a local Receiving record for every embedded PortDescriptor
and dispatches PortAccepted to each referring port — and then immediately
closes each of those newly created ports, sending ObserveClosure (with
the descriptor's `next_sequence_num_to_send − 1`) to each one's peer.
The node ends exactly as it started: no record is retained and the
carrier message is not enqueued on any port; the result is OK. -/
theorem claim8_unknown_port (n : Node) (m : Message) (seq : Nat)
    (descs : List PortDescriptor) (payload : Nat)
    (hdata : m.data = .user seq descs payload)
    (hlen : m.ports.length = descs.length)
    (hnodup : m.ports.Nodup)
    (hfresh : ∀ q ∈ m.ports, n.getPort q = none)
    (hdest : n.getPort m.port_name = none) :
    onUserMessage n m =
      (OK, n,
       (m.ports.zip descs).map (fun pr =>
         Output.forwardMessage pr.2.referring_node_name
           (newInternalMessage pr.2.referring_port_name .portAccepted)) ++
       (m.ports.zip descs).map (fun pr =>
         Output.forwardMessage pr.2.peer_node_name
           (newInternalMessage pr.2.peer_port_name
             (.observeClosure (pr.2.next_sequence_num_to_send - 1))))) := by
  have hdesc : m.descriptors = descs := by
    simp [Message.descriptors, hdata]
  have hkeys : (m.ports.zip descs).map Prod.fst = m.ports :=
    List.map_fst_zip m.ports descs (le_of_eq hlen)
  have hfresh2 : ∀ pr ∈ m.ports.zip descs, n.getPort pr.1 = none := by
    intro pr hpr
    obtain ⟨a, b⟩ := pr
    exact hfresh a (List.of_mem_zip hpr).1
  have hnodup2 : ((m.ports.zip descs).map Prod.fst).Nodup := by
    rw [hkeys]
    exact hnodup
  have hA := acceptLoop_spec (m.ports.zip descs) n hfresh2 hnodup2
  have hB := closeLoop_spec (m.ports.zip descs)
    { n with ports := n.ports ++
        (m.ports.zip descs).map (fun pr => (pr.1, acceptedPort pr.2)) }
    n.ports rfl (fun pr hpr => hfresh2 pr hpr) hnodup2
  rw [hkeys] at hB
  simp only [onUserMessage, hdesc, hdest, hA]
  rw [if_neg (by simp)]
  simp only [hB]

/-- Claim C8 witness at a concrete two-descriptor message addressed to an
unknown port. -/
theorem claim8_unknown_port_witness :
    onUserMessage tNode
        { port_name := 77,
          data := .user 1 [{ peer_node_name := 5, peer_port_name := 50,
                             referring_node_name := 6, referring_port_name := 60,
                             next_sequence_num_to_send := 3,
                             next_sequence_num_to_receive := 2 }] 0,
          ports := [30] } =
      (OK, tNode,
       [Output.forwardMessage 6 (newInternalMessage 60 .portAccepted),
        Output.forwardMessage 5 (newInternalMessage 50 (.observeClosure 2))]) := by
  have h := claim8_unknown_port tNode
    { port_name := 77,
      data := .user 1 [{ peer_node_name := 5, peer_port_name := 50,
                         referring_node_name := 6, referring_port_name := 60,
                         next_sequence_num_to_send := 3,
                         next_sequence_num_to_receive := 2 }] 0,
      ports := [30] }
    1 [{ peer_node_name := 5, peer_port_name := 50,
         referring_node_name := 6, referring_port_name := 60,
         next_sequence_num_to_send := 3, next_sequence_num_to_receive := 2 }] 0
    rfl (by decide) (by decide) (by decide) (by decide)
  simpa using h

end Ports
